import Mathlib

/-!
Verification of the event-extraction core of the `visupt` uptime-chart tool
(`src/app.py`).  Python values reaching the extractor (decoded JSON) are
modelled by the inductive `Value`; the per-message pipeline of
`extract_events`, its two regular expressions, the normalization step and
the chronological sort are translated function by function.  Exceptions
that the source code does not catch are modelled by `Except PyErr`.
-/

/-- A decoded JSON / Python value as it can appear in a message record.
JSON numbers are modelled as integers (the archive's fields hold strings
and integers; float semantics are out of scope). -/
inductive Value where
  | vNull : Value
  | vBool : Bool → Value
  | vInt : Int → Value
  | vStr : String → Value
  | vList : List Value → Value
  | vDict : List (String × Value) → Value

/-- Exception classes that `extract_events` can let escape (everything the
code raises and does not catch). -/
inductive PyErr where
  | typeError : PyErr
  | attributeError : PyErr
  | osError : PyErr
  | overflowError : PyErr
deriving DecidableEq, Repr

deriving instance DecidableEq for Except

/-- UP/DOWN status of an extracted event. -/
inductive Status where
  | UP : Status
  | DOWN : Status
deriving DecidableEq, Repr

/-- One extracted event: `{"service": ..., "status": ..., "time": ...}`.
The `datetime` object is represented by the unix timestamp that uniquely
determines it (`datetime.fromtimestamp` is strictly monotone, so sorting
by the datetime equals sorting by the timestamp). -/
structure Event where
  service : String
  status : Status
  time : Int
deriving DecidableEq, Repr

/-- Python `dict.get` / `d[k]` lookup.  Python dicts (from `json.load`)
have distinct keys, so lookup order is immaterial; we take the first
binding. -/
def dictGet (fs : List (String × Value)) (k : String) : Option Value :=
  match fs with
  | [] => none
  | p :: rest => if p.1 = k then some p.2 else dictGet rest k

/-- Whether an optional value is a given string (Python `x == "lit"` where
a missing key yields `None`; non-strings never equal a string). -/
def optIsStr (o : Option Value) (s : String) : Bool :=
  match o with
  | some (.vStr t) => t = s
  | _ => false

/-- Python truthiness of a value (`if x:`). -/
def pyTruthy : Value → Bool
  | .vNull => false
  | .vBool b => b
  | .vInt n => n ≠ 0
  | .vStr s => s ≠ ""
  | .vList xs => !xs.isEmpty
  | .vDict fs => !fs.isEmpty

/-- The whitespace class used by `str.strip`, `re` class `\s` and
`int(str)` (ASCII subset; the archive's text uses only these). -/
def isPySpace (c : Char) : Bool :=
  c = ' ' || c = '\t' || c = '\n' || c = '\x0d' || c = '\x0b' || c = '\x0c'

/-- Substring test, Python `needle in haystack` for strings. -/
def listContains (needle : List Char) : List Char → Bool
  | [] => needle.isEmpty
  | c :: t => needle.isPrefixOf (c :: t) || listContains needle t

/-- Python `needle in x` for a string needle: substring test on strings,
membership on lists, key membership on dicts, `TypeError` otherwise. -/
def pyIn (needle : String) : Value → Except PyErr Bool
  | .vStr s => .ok (listContains needle.data s.data)
  | .vList xs => .ok (xs.any fun v =>
      match v with
      | .vStr t => t = needle
      | _ => false)
  | .vDict fs => .ok (fs.any fun p => p.1 = needle)
  | _ => .error .typeError

/-- Python `str.strip()` on a character list. -/
def pyStrip (l : List Char) : List Char :=
  (((l.dropWhile isPySpace).reverse).dropWhile isPySpace).reverse

/-- Python `str.rstrip("/")`: remove every trailing `'/'`. -/
def rstripSlash (l : List Char) : List Char :=
  ((l.reverse).dropWhile (fun c => c = '/')).reverse

/-- Effect of `re.sub(r"\s+", " ", s)`: each maximal whitespace run
becomes a single space. -/
def collapseWs : List Char → List Char
  | [] => []
  | c :: rest =>
    if isPySpace c then
      match rest with
      | [] => [' ']
      | d :: rest' =>
        if isPySpace d then collapseWs (d :: rest')
        else ' ' :: collapseWs (d :: rest')
    else c :: collapseWs rest

/-- The clean-up applied to a resolved target name
(`target.rstrip("/")` then `re.sub(r"\s+", " ", str(target)).strip()`). -/
def pyNorm (s : String) : String :=
  String.mk (pyStrip (collapseWs (rstripSlash s.data)))

/-- Python `repr` of a string: quote choice and the escapes relevant to
printable ASCII text (`\xhh` escapes of other control characters are not
modelled; no claim depends on them). -/
def reprStrPy (s : String) : String :=
  let useDouble := s.data.contains '\'' && !(s.data.contains '"')
  let q : Char := if useDouble then '"' else '\''
  let esc : Char → String := fun c =>
    if c = '\\' then "\\\\"
    else if c = q then "\\" ++ q.toString
    else if c = '\n' then "\\n"
    else if c = '\t' then "\\t"
    else if c = '\x0d' then "\\r"
    else c.toString
  q.toString ++ String.join (s.data.map esc) ++ q.toString

/-- Python `repr` of a value (used by `str` on lists and dicts). -/
def pyRepr : Value → String
  | .vNull => "None"
  | .vBool b => if b then "True" else "False"
  | .vInt n => toString n
  | .vStr s => reprStrPy s
  | .vList xs => "[" ++ String.intercalate ", "
      (xs.attach.map fun x => pyRepr x.1) ++ "]"
  | .vDict fs => "\x7b" ++ String.intercalate ", "
      (fs.attach.map fun p => reprStrPy p.1.1 ++ ": " ++ pyRepr p.1.2) ++ "\x7d"
decreasing_by
  · exact Nat.lt_trans (List.sizeOf_lt_of_mem x.2) (by simp [Value.vList.sizeOf_spec])
  · calc sizeOf p.1.2 < sizeOf p.1 := by cases _hp : p.1 with | mk a b => simp
      _ < sizeOf fs := List.sizeOf_lt_of_mem p.2
      _ < sizeOf (Value.vDict fs) := by simp [Value.vDict.sizeOf_spec]

/-- Python `str()` of a value. -/
def pyStr : Value → String
  | .vStr s => s
  | v => pyRepr v

/-- ASCII digit test. -/
def isAsciiDigit (c : Char) : Bool :=
  '0' ≤ c && c ≤ '9'

/-- Numeric value of an ASCII digit. -/
def digitVal (c : Char) : Nat :=
  c.toNat - '0'.toNat

/-- Continuation of `int(str)` digit parsing: further digits, with single
underscores allowed between digits (Python 3.6+ grammar). -/
def digitsCore : Nat → List Char → Option Nat
  | acc, [] => some acc
  | acc, '_' :: c :: rest =>
    if isAsciiDigit c then digitsCore (acc * 10 + digitVal c) rest else none
  | _, ['_'] => none
  | acc, c :: rest =>
    if isAsciiDigit c then digitsCore (acc * 10 + digitVal c) rest else none

/-- Digit run of `int(str)`: at least one digit, then `digitsCore`. -/
def digitsStart : List Char → Option Nat
  | [] => none
  | c :: rest => if isAsciiDigit c then digitsCore (digitVal c) rest else none

/-- Python `int(s)` for a string: optional surrounding whitespace, optional
sign, ASCII decimal digits (non-ASCII decimal digits are not modelled).
`none` means `ValueError`. -/
def parseIntStr (s : String) : Option Int :=
  match pyStrip s.data with
  | '+' :: rest => (digitsStart rest).map fun n => (n : Int)
  | '-' :: rest => (digitsStart rest).map fun n => -(n : Int)
  | l => (digitsStart l).map fun n => (n : Int)

/-- Python `int(v)`: identity on ints, `True`/`False` to 1/0, string
parsing, and `none` for the `TypeError`/`ValueError` cases that the
source catches (`except (ValueError, TypeError)`). -/
def pyToInt : Value → Option Int
  | .vInt n => some n
  | .vBool b => some (if b then 1 else 0)
  | .vStr s => parseIntStr s
  | _ => none

/-- Smallest timestamp `datetime.fromtimestamp(·, timezone.utc)` accepts
(0001-01-01T00:00:00Z). -/
def tsOkMin : Int := -62135596800

/-- Largest accepted timestamp (9999-12-31T23:59:59Z). -/
def tsOkMax : Int := 253402300799

/-- Below this, CPython on 64-bit Linux raises `OSError`/`OverflowError`
instead of `ValueError` (year underflows a C int). -/
def tsValueErrMin : Int := -67768040609740800

/-- Above this, CPython on 64-bit Linux raises `OSError`/`OverflowError`
instead of `ValueError` (year overflows a C int). -/
def tsValueErrMax : Int := 67768036191676799

/-- Minimum of a signed 64-bit integer. -/
def int64Min : Int := -9223372036854775808

/-- Maximum of a signed 64-bit integer. -/
def int64Max : Int := 9223372036854775807

/-- Steps 1 of the pipeline: `int(msg["date_unixtime"])` followed by
`datetime.fromtimestamp(timestamp, timezone.utc)` under
`except (ValueError, TypeError): continue`.  `.ok none` is a caught
exception (message skipped); `.error` escapes to the caller.  The
`OSError`/`OverflowError` boundaries are those of CPython 3.11 on 64-bit
Linux. -/
def parseTimestamp (v : Value) : Except PyErr (Option Int) :=
  match pyToInt v with
  | none => .ok none
  | some n =>
    if tsOkMin ≤ n ∧ n ≤ tsOkMax then .ok (some n)
    else if tsValueErrMin ≤ n ∧ n ≤ tsValueErrMax then .ok none
    else if int64Min ≤ n ∧ n ≤ int64Max then .error .osError
    else .error .overflowError

/-- Case-insensitive (ASCII) prefix test, for the `re.IGNORECASE` title
pattern. -/
def ciPrefixAt (pat : List Char) (s : List Char) : Bool :=
  match pat, s with
  | [], _ => true
  | _ :: _, [] => false
  | p :: ps, c :: cs => (p.toLower = c.toLower) && ciPrefixAt ps cs

/-- Whether one of the three status phrases of the title pattern starts
here (case-insensitively). -/
def phraseAt (s : List Char) : Bool :=
  ciPrefixAt "is now UP".data s || ciPrefixAt "is now DOWN".data s ||
    ciPrefixAt "is still DOWN".data s

/-- Whether `\s+(?:is now UP|is now DOWN|is still DOWN)` matches at this
position.  Since no phrase starts with whitespace, the greedy `\s+` must
consume the entire whitespace run. -/
def wsThenPhrase (s : List Char) : Bool :=
  match s with
  | [] => false
  | c :: _ => isPySpace c && phraseAt (s.dropWhile isPySpace)

/-- Worker for the title match: the lazy `(.*?)` group grows one
character at a time (never across `\n`, which `.` cannot match) until
`\s+` + phrase matches; `acc` holds the group so far, reversed. -/
def titleGroupAux : List Char → List Char → Option (List Char)
  | acc, s =>
    if wsThenPhrase s then some acc.reverse
    else
      match s with
      | [] => none
      | c :: rest => if c = '\n' then none else titleGroupAux (c :: acc) rest

/-- `title_regex.match(s)`: the captured group of
`^(.*?)\s+(?:is now UP|is now DOWN|is still DOWN)` with `re.IGNORECASE`,
or `none` when the pattern does not match. -/
def titleGroup (s : List Char) : Option (List Char) :=
  titleGroupAux [] s

/-- Strip a literal off the front of the input, or fail. -/
def stripLit (lit : List Char) (s : List Char) : Option (List Char) :=
  if lit.isPrefixOf s then some (s.drop lit.length) else none

/-- The tail of the first target alternative:
`"type":\s*"link",\s*"text":\s*"([^"]+)"` anchored here.  Each `\s*` is
followed by a literal `"` (not whitespace), so greedy matching with
backtracking is equivalent to consuming the whole whitespace run; the
final `[^"]+` is greedy and must be non-empty and followed by `"`. -/
def linkTail (s : List Char) : Option (List Char) :=
  match stripLit "\"type\":".data s with
  | none => none
  | some s1 =>
    match stripLit "\"link\",".data (s1.dropWhile isPySpace) with
    | none => none
    | some s3 =>
      match stripLit "\"text\":".data (s3.dropWhile isPySpace) with
      | none => none
      | some s5 =>
        match s5.dropWhile isPySpace with
        | '"' :: s7 =>
          let cap := s7.takeWhile fun c => c ≠ '"'
          if cap.isEmpty then none
          else
            match s7.dropWhile (fun c => c ≠ '"') with
            | '"' :: _ => some cap
            | _ => none
        | _ => none

/-- The first alternative `.*?"type":\s*"link",\s*"text":\s*"([^"]+)"`
anchored here: the lazy `.*?` advances over non-newline characters until
`linkTail` matches. -/
def tryA : List Char → Option (List Char)
  | [] => none
  | c :: rest =>
    match linkTail (c :: rest) with
    | some cap => some cap
    | none => if c = '\n' then none else tryA rest

/-- The second alternative `([^\n]+)` under the backtracking of the
preceding greedy `\s*`: `run` is the whitespace run after `Target:` and
`q` the rest.  The engine retries at positions from the end of the run
backwards, so it captures from `q` when non-empty, else from the last
non-newline whitespace character. -/
def tryB (run : List Char) (q : List Char) : Option (List Char) :=
  match q with
  | _ :: _ => some (q.takeWhile fun c => c ≠ '\n')
  | [] =>
    match (run.reverse).dropWhile (fun c => c = '\n') with
    | c :: _ => some [c]
    | [] => none

/-- The anchored pattern after a `Target:` literal:
`\s*(?:A|B)` where `A` is the link alternative and `B` the plain-text
alternative.  The engine prefers `A` at the position past the whitespace
run (where `A` matches iff it matches anywhere under the `\s*`
backtracking), and otherwise falls back to `B`. -/
def afterTarget (s : List Char) : Option (List Char) :=
  let run := s.takeWhile isPySpace
  let q := s.dropWhile isPySpace
  match tryA q with
  | some g => some g
  | none => tryB run q

/-- `target_regex.search(s)`: scan for the leftmost position where the
whole pattern matches — a `Target:` literal whose anchored continuation
succeeds — and return the chosen capture
(`match.group(1) or match.group(2)`; the matching group is never the
empty string). -/
def targetSearch : List Char → Option (List Char)
  | [] => none
  | c :: rest =>
    if ("Target:".data).isPrefixOf (c :: rest) then
      match afterTarget ((c :: rest).drop 7) with
      | some g => some g
      | none => targetSearch rest
    else targetSearch rest

/-- One iteration of the text-assembly loop: a fragment contributes
`str(item["text"]) + "\n"` when it is a dict with a `"text"` key,
`item + "\n"` when it is a plain string, and nothing otherwise. -/
def fragText (acc : String) (item : Value) : String :=
  match item with
  | .vDict ifs =>
    match dictGet ifs "text" with
    | some tv => acc ++ pyStr tv ++ "\n"
    | none => acc
  | .vStr s => acc ++ s ++ "\n"
  | _ => acc

/-- Assembling `text_content` from `msg.get("text", "")`: a list of
fragments is concatenated one per line, a plain string is taken as is,
and any other shape skips the message (`none`). -/
def buildText : Value → Option String
  | .vList items => some (items.foldl fragText "")
  | .vStr s => some s
  | _ => none

/-- The body of one iteration of the status-scan loop: for a dict entity
of type `"bold"`, test the three substrings against `entity.get("text",
"")` in source order (`is now UP`, `is now DOWN`, `is still DOWN`);
report the status and the bold text on a hit. -/
def entityStatus (e : Value) : Except PyErr (Option (Status × Value)) :=
  match e with
  | .vDict fs =>
    if optIsStr (dictGet fs "type") "bold" then
      let b := (dictGet fs "text").getD (.vStr "")
      match pyIn "is now UP" b with
      | .error er => .error er
      | .ok true => .ok (some (.UP, b))
      | .ok false =>
        match pyIn "is now DOWN" b with
        | .error er => .error er
        | .ok true => .ok (some (.DOWN, b))
        | .ok false =>
          match pyIn "is still DOWN" b with
          | .error er => .error er
          | .ok true => .ok (some (.DOWN, b))
          | .ok false => .ok none
    else .ok none
  | _ => .ok none

/-- Status determination: scan the entity list in order and stop at the
first bold entity containing a recognized substring (the `break`s of the
source loop). -/
def statusScan : List Value → Except PyErr (Option (Status × Value))
  | [] => .ok none
  | e :: rest =>
    match entityStatus e with
    | .error er => .error er
    | .ok (some r) => .ok (some r)
    | .ok none => statusScan rest

/-- Method 1, the title parse: guarded by `if status and
bold_text_content`; `re` raises `TypeError` on a non-string argument;
on a match the target is the stripped capture group. -/
def method1b (b : Value) : Except PyErr (Option String) :=
  if pyTruthy b then
    match b with
    | .vStr s => .ok ((titleGroup s.data).map fun g => String.mk (pyStrip g))
    | _ => .error .typeError
  else .ok none

/-- Method 2, the `Target:` line: regex search on the assembled body
text; the matching group is non-empty, hence truthy, and is stripped. -/
def method2 (tc : String) : Option String :=
  (targetSearch tc.data).map fun cap => String.mk (pyStrip cap)

/-- Method 3, the link fallback: first entity of type `"link"` whose text
contains `"."` and no `" "`; `in` on a non-container text raises
`TypeError`, and `.strip()` on a non-string raises `AttributeError`. -/
def method3 : List Value → Except PyErr (Option String)
  | [] => .ok none
  | e :: rest =>
    match e with
    | .vDict fs =>
      if optIsStr (dictGet fs "type") "link" then
        let pt := (dictGet fs "text").getD (.vStr "")
        match pyIn "." pt with
        | .error er => .error er
        | .ok false => method3 rest
        | .ok true =>
          match pyIn " " pt with
          | .error er => .error er
          | .ok true => method3 rest
          | .ok false =>
            match pt with
            | .vStr s => .ok (some (String.mk (pyStrip s.data)))
            | _ => .error .attributeError
      else method3 rest
    | _ => method3 rest

/-- The three-method resolution chain, exactly as sequenced in the
source: with no status every method's guard is false and the target
stays `None`; otherwise method 1 runs, method 2 runs only if the target
is still `None`, then method 3 likewise. -/
def resolveTarget (sb : Option (Status × Value)) (tc : String)
    (es : List Value) : Except PyErr (Option String) :=
  match sb with
  | none => .ok none
  | some (_, b) =>
    match method1b b with
    | .error er => .error er
    | .ok (some t) => .ok (some t)
    | .ok none =>
      match method2 tc with
      | some t => .ok (some t)
      | none => method3 es

/-- The clean-up-and-store step: `if target and status:` (empty target is
falsy), normalize, and emit only if the normalized name is non-empty. -/
def finalize (ts : Int) (st : Option Status) (tgt : Option String) :
    Option Event :=
  match tgt, st with
  | some t, some s =>
    if t ≠ "" then
      if pyNorm t ≠ "" then some ⟨pyNorm t, s, ts⟩ else none
    else none
  | _, _ => none

/-- The whole per-message pipeline of `extract_events`, in source order:
structural preconditions, timestamp, body-text assembly, entity-list
check, status scan, target resolution, clean-up.  `.ok none` is a
skipped message, `.error` an uncaught exception. -/
def processMsg (m : Value) : Except PyErr (Option Event) :=
  match m with
  | .vDict fs =>
    if optIsStr (dictGet fs "from") "HetrixTools"
        && (dictGet fs "text_entities").isSome
        && (dictGet fs "date_unixtime").isSome then
      match parseTimestamp ((dictGet fs "date_unixtime").getD .vNull) with
      | .error er => .error er
      | .ok none => .ok none
      | .ok (some ts) =>
        match buildText ((dictGet fs "text").getD (.vStr "")) with
        | none => .ok none
        | some tc =>
          match (dictGet fs "text_entities").getD .vNull with
          | .vList es =>
            match statusScan es with
            | .error er => .error er
            | .ok sb =>
              match resolveTarget sb tc es with
              | .error er => .error er
              | .ok tgt => .ok (finalize ts (sb.map Prod.fst) tgt)
          | _ => .ok none
    else .ok none
  | _ => .ok none

/-- The message loop of `extract_events`: events are appended in message
order; an uncaught exception aborts the whole call. -/
def extractLoop : List Value → Except PyErr (List Event)
  | [] => .ok []
  | m :: rest =>
    match processMsg m with
    | .error er => .error er
    | .ok none => extractLoop rest
    | .ok (some ev) =>
      match extractLoop rest with
      | .error er => .error er
      | .ok evs => .ok (ev :: evs)

/-- Stable insertion of an event into a list sorted by `time`: the new
event goes before the first element whose time is not smaller, i.e.
after every strictly earlier element and before every element with equal
or later time. -/
def insertEv (e : Event) : List Event → List Event
  | [] => [e]
  | f :: rest => if e.time ≤ f.time then e :: f :: rest else f :: insertEv e rest

/-- The effect of `events.sort(key=lambda x: x["time"])`: Python's sort
is stable, and a stable non-decreasing sort by a key is unique, so the
stable insertion sort computes the same list. -/
def sortByTime : List Event → List Event
  | [] => []
  | e :: rest => insertEv e (sortByTime rest)

/-- `extract_events(messages)`: `None` yields `[]`; otherwise the
per-message loop followed by the chronological sort. -/
def extract_events (messages : Option (List Value)) :
    Except PyErr (List Event) :=
  match messages with
  | none => .ok []
  | some ms =>
    match extractLoop ms with
    | .error er => .error er
    | .ok evs => .ok (sortByTime evs)

/-- One plotted interval of the Gantt chart: a bar from `lo` to `hi`
whose colour encodes `st` (`mediumseagreen` for UP, `lightcoral` for
DOWN). -/
structure Bar where
  lo : Int
  hi : Int
  st : Status
deriving DecidableEq, Repr

/-- Logical opposite of a status (`"DOWN" if ... == "UP" else "UP"`). -/
def oppStatus : Status → Status
  | .UP => .DOWN
  | .DOWN => .UP

/-- The event loop of `create_gantt_chart` for one service: emit a bar
for the state before each event when time has progressed, then return
the final `last_time`/`last_status` for the closing bar. -/
def intervalsGo (lastTime : Int) (lastStatus : Status) :
    List Event → List Bar × Int × Status
  | [] => ([], lastTime, lastStatus)
  | e :: rest =>
    let emitted := if lastTime < e.time then [⟨lastTime, e.time, lastStatus⟩] else []
    let contin := intervalsGo e.time e.status rest
    (emitted ++ contin.1, contin.2)

/-- The bars plotted for one service: the state before the first event is
assumed to be the opposite of that event's status, the loop runs over
the service's events, and a final bar extends to the right edge of the
plot.  (The empty case is unreachable: every plotted service has at
least one event.) -/
def serviceBars (plotStart plotEnd : Int) (evs : List Event) : List Bar :=
  match evs with
  | [] => []
  | first :: _ =>
    let r := intervalsGo plotStart (oppStatus first.status) evs
    r.1 ++ (if r.2.1 < plotEnd then [⟨r.2.1, plotEnd, r.2.2⟩] else [])

/-- A concrete message record with the four fields the extractor reads;
field values are arbitrary. -/
def mkMsg (f ts tx ents : Value) : Value :=
  .vDict [("from", f), ("date_unixtime", ts), ("text", tx),
    ("text_entities", ents)]

/-- A `{"type": "bold", "text": s}` entity. -/
def boldEnt (s : String) : Value :=
  .vDict [("type", .vStr "bold"), ("text", .vStr s)]

/-- A `{"type": "link", "text": s}` entity. -/
def linkEnt (s : String) : Value :=
  .vDict [("type", .vStr "link"), ("text", .vStr s)]

/-- The sender every eligible message must have. -/
def hetrix : Value := .vStr "HetrixTools"

/-- The invariant the whitespace-collapsing substitution establishes:
every whitespace character is a plain space and no two adjacent
characters are both whitespace. -/
def WsCollapsed (l : List Char) : Prop :=
  (∀ c ∈ l, isPySpace c = true → c = ' ') ∧
    l.Chain' fun a b => isPySpace a = true → isPySpace b = false

theorem collapseWs_cons_of_not (c : Char) (rest : List Char)
    (h : ¬isPySpace c = true) : collapseWs (c :: rest) = c :: collapseWs rest := by
  cases rest <;> simp [collapseWs, h]

theorem collapseWs_head_of_not (c : Char) (rest : List Char)
    (h : ¬isPySpace c = true) :
    (collapseWs (c :: rest)).head? = some c := by
  rw [collapseWs_cons_of_not c rest h]; rfl

theorem wsCollapsed_collapseWs (l : List Char) : WsCollapsed (collapseWs l) := by
  induction l with
  | nil => exact ⟨by simp [collapseWs], by simp [collapseWs]⟩
  | cons c rest ih =>
    by_cases hc : isPySpace c = true
    · cases rest with
      | nil =>
        refine ⟨?_, ?_⟩
        · intro x hx _
          simp [collapseWs, hc] at hx
          simp [hx]
        · simp [collapseWs, hc]
      | cons d rest' =>
        by_cases hd : isPySpace d = true
        · simpa [collapseWs, hc, hd] using ih
        · have hcl : collapseWs (c :: d :: rest') = ' ' :: collapseWs (d :: rest') := by
            simp [collapseWs, hc, hd]
          rw [hcl]
          refine ⟨?_, ?_⟩
          · intro x hx hxs
            rcases List.mem_cons.mp hx with h1 | h2
            · simp [h1]
            · exact ih.1 x h2 hxs
          · refine List.Chain'.cons' ih.2 ?_
            intro y hy
            rw [collapseWs_head_of_not d rest' hd] at hy
            simp only [Option.mem_def, Option.some.injEq] at hy
            intro _
            rw [← hy]
            simpa using hd
    · rw [collapseWs_cons_of_not c rest hc]
      refine ⟨?_, ?_⟩
      · intro x hx hxs
        rcases List.mem_cons.mp hx with h1 | h2
        · exact absurd (h1 ▸ hxs) hc
        · exact ih.1 x h2 hxs
      · refine List.Chain'.cons' ih.2 ?_
        intro y _ hcs
        exact absurd hcs hc

theorem wsCollapsed_tail (c : Char) (rest : List Char)
    (h : WsCollapsed (c :: rest)) : WsCollapsed rest :=
  ⟨fun x hx => h.1 x (List.mem_cons_of_mem c hx), h.2.tail⟩

theorem collapseWs_of_wsCollapsed (l : List Char) (h : WsCollapsed l) :
    collapseWs l = l := by
  induction l with
  | nil => rfl
  | cons c rest ih =>
    by_cases hc : isPySpace c = true
    · have hcsp : c = ' ' := h.1 c (List.mem_cons_self c rest) hc
      cases rest with
      | nil => simp [collapseWs, hc, hcsp]
      | cons d rest' =>
        have hd : isPySpace d = false := by
          have := List.chain'_cons.mp h.2
          exact this.1 hc
        have hd' : ¬isPySpace d = true := by simp [hd]
        have : collapseWs (c :: d :: rest') = ' ' :: collapseWs (d :: rest') := by
          simp [collapseWs, hc, hd']
        rw [this, ih (wsCollapsed_tail c _ h), hcsp]
    · rw [collapseWs_cons_of_not c rest hc, ih (wsCollapsed_tail c _ h)]

theorem pyStrip_eq_rdrop (l : List Char) :
    pyStrip l = List.rdropWhile isPySpace (List.dropWhile isPySpace l) := rfl

theorem rstripSlash_eq_rdrop (l : List Char) :
    rstripSlash l = List.rdropWhile (fun c => c = '/') l := rfl

theorem wsCollapsed_pyStrip (l : List Char) (h : WsCollapsed l) :
    WsCollapsed (pyStrip l) := by
  rw [pyStrip_eq_rdrop]
  have hsub : List.Sublist
      (List.rdropWhile isPySpace (List.dropWhile isPySpace l)) l :=
    List.Sublist.trans (List.rdropWhile_prefix _ _).sublist
      (List.dropWhile_suffix isPySpace).sublist
  refine ⟨fun c hc => h.1 c (hsub.subset hc), ?_⟩
  exact List.Chain'.prefix
    (h.2.suffix (List.dropWhile_suffix isPySpace))
    (List.rdropWhile_prefix _ _)

theorem dropWhile_of_rdrop_drop (p : Char → Bool) (l : List Char) :
    List.dropWhile p (List.rdropWhile p (List.dropWhile p l)) =
      List.rdropWhile p (List.dropWhile p l) := by
  rw [List.dropWhile_eq_self_iff]
  intro hl
  have hpre := List.rdropWhile_prefix p (List.dropWhile p l)
  have hlen : 0 < (List.dropWhile p l).length :=
    Nat.lt_of_lt_of_le hl hpre.length_le
  have h0 := List.dropWhile_get_zero_not p l hlen
  rw [List.get_eq_getElem] at h0 ⊢
  rw [hpre.getElem hl]
  exact h0

theorem pyStrip_idem (l : List Char) : pyStrip (pyStrip l) = pyStrip l := by
  rw [pyStrip_eq_rdrop, pyStrip_eq_rdrop, dropWhile_of_rdrop_drop,
    List.rdropWhile_idempotent]

/-- A normalized name whose last character is not `'/'` is a fixpoint of
the whole normalization. -/
theorem pyNorm_fix (s : String)
    (h : (pyNorm s).data.getLast? ≠ some '/') : pyNorm (pyNorm s) = pyNorm s := by
  have hdat : (pyNorm s).data = pyStrip (collapseWs (rstripSlash s.data)) := rfl
  have h1 : rstripSlash (pyNorm s).data = (pyNorm s).data := by
    rw [rstripSlash_eq_rdrop, List.rdropWhile_eq_self_iff]
    intro hne
    rw [List.getLast?_eq_getLast _ hne] at h
    simpa using h
  have h2 : WsCollapsed (pyNorm s).data := by
    rw [hdat]
    exact wsCollapsed_pyStrip _ (wsCollapsed_collapseWs _)
  show String.mk (pyStrip (collapseWs (rstripSlash (pyNorm s).data))) = pyNorm s
  rw [h1, collapseWs_of_wsCollapsed _ h2, hdat, pyStrip_idem]
  rfl

/-- Helper: an emitted event records the normalized target and a
non-empty normalized name. -/
theorem finalize_eq_some (ts : Int) (st : Status) (t : String) (ev : Event)
    (h : finalize ts (some st) (some t) = some ev) :
    ev.service = pyNorm t ∧ pyNorm t ≠ "" := by
  simp only [finalize] at h
  split_ifs at h with h1 h2
  · exact ⟨by injection h with h3; rw [← h3], h2⟩

/-- Helper: an empty normalized name is never emitted. -/
theorem finalize_none_of_norm_empty (ts : Int) (st : Status) (t : String)
    (h : pyNorm t = "") : finalize ts (some st) (some t) = none := by
  simp only [finalize]
  split_ifs with h1 h2
  · exact absurd h h2
  · rfl
  · rfl

/-- Helper: every emitted event comes out of the clean-up step. -/
theorem processMsg_emits (m : Value) (ev : Event)
    (h : processMsg m = .ok (some ev)) :
    ∃ ts st tgt, finalize ts st tgt = some ev := by
  unfold processMsg at h
  repeat' split at h
  all_goals simp only [Except.ok.injEq, reduceCtorEq] at h
  exact ⟨_, _, _, h⟩

/-- C2, counterexample: the code's normalization is not idempotent on
every string.  Normalizing `"a/ "` yields `"a/"` (the trailing space
hides the slash from `rstrip("/")`), and normalizing that again strips
the now-exposed slash, yielding `"a"`. -/
theorem claim_C2_counterexample :
    pyNorm "a/ " = "a/" ∧ pyNorm (pyNorm "a/ ") ≠ pyNorm "a/ " := by
  constructor
  · rfl
  · decide

/-- C2, amended: normalization (strip all trailing `'/'`, collapse
whitespace runs, trim) is idempotent on every string whose normalized
form does not end in `'/'`; when the normalized form ends in `'/'`
(possible because whitespace trimming can expose a slash), a second
application strips further. -/
theorem claim_C2 (s : String) (h : (pyNorm s).data.getLast? ≠ some '/') :
    pyNorm (pyNorm s) = pyNorm s :=
  pyNorm_fix s h

/-- C2, witness for the amended theorem at a concrete input. -/
theorem claim_C2_witness :
    (pyNorm " a  b ").data.getLast? ≠ some '/' ∧
      pyNorm (pyNorm " a  b ") = pyNorm " a  b " :=
  ⟨by decide, claim_C2 " a  b " (by decide)⟩

/-- The normalization as the claim words it (for comparison with the
code's `pyNorm`): strip ONE trailing `"/"` if present, then collapse
each whitespace run to a single space, then trim. -/
def specNormOne (s : String) : String :=
  let l := match s.data.reverse with
    | '/' :: t => t.reverse
    | _ => s.data
  String.mk (pyStrip (collapseWs l))

/-- C3, counterexample: for the resolved service name `"a//"` the code
emits service `"a"` (every trailing slash stripped), not the `"a/"`
that stripping one trailing slash would produce. -/
theorem claim_C3_counterexample :
    resolveTarget (some (.UP, .vStr "a// is now UP")) ""
        [boldEnt "a// is now UP"] = .ok (some "a//") ∧
      processMsg (mkMsg hetrix (.vStr "100") (.vStr "")
        (.vList [boldEnt "a// is now UP"])) =
        .ok (some ⟨"a", .UP, 100⟩) ∧
      specNormOne "a//" = "a/" ∧
      pyNorm "a//" ≠ specNormOne "a//" := by
  refine ⟨by decide, by decide, by decide, by decide⟩

/-- C3, amended: the emitted service name equals the resolved name with
ALL trailing `"/"` stripped, whitespace runs collapsed and surroundings
trimmed; a name normalizing to the empty string is never emitted, and
every emitted event's service is such a non-empty normalized name. -/
theorem claim_C3 :
    (∀ ts st t ev, finalize ts (some st) (some t) = some ev →
      ev.service = pyNorm t ∧ pyNorm t ≠ "") ∧
    (∀ ts st t, pyNorm t = "" → finalize ts (some st) (some t) = none) ∧
    (∀ m ev, processMsg m = .ok (some ev) →
      ∃ t, ev.service = pyNorm t ∧ pyNorm t ≠ "") := by
  refine ⟨finalize_eq_some, finalize_none_of_norm_empty, ?_⟩
  intro m ev h
  obtain ⟨ts, st, tgt, hf⟩ := processMsg_emits m ev h
  match st, tgt with
  | none, _ => simp [finalize] at hf
  | some s, none => simp [finalize] at hf
  | some s, some t =>
    obtain ⟨h1, h2⟩ := finalize_eq_some ts s t ev hf
    exact ⟨t, h1, h2⟩

/-- C3, witness: the amended theorem applied to a concretely processed
message. -/
theorem claim_C3_witness :
    ∃ t, (Event.mk "example.com" .DOWN 100).service = pyNorm t ∧
      pyNorm t ≠ "" :=
  claim_C3.2.2
    (mkMsg hetrix (.vStr "100") (.vStr "")
      (.vList [boldEnt "example.com is now DOWN"]))
    ⟨"example.com", .DOWN, 100⟩ (by decide)

def wfText : Option Value → Bool
  | none => true
  | some (.vStr _) => true
  | some _ => false

def wfEntity (e : Value) : Bool :=
  match e with
  | .vDict fs => wfText (dictGet fs "text")
  | _ => true

theorem wfText_getD (o : Option Value) (h : wfText o = true) :
    ∃ s, o.getD (.vStr "") = .vStr s := by
  cases o with
  | none => exact ⟨"", rfl⟩
  | some v => cases v <;> first
    | exact ⟨_, rfl⟩
    | simp [wfText] at h

def wfEnts : Option Value → Bool
  | some (.vList es) => es.all wfEntity
  | _ => true

def wfDate : Option Value → Bool
  | some v =>
    (match pyToInt v with
     | some n => decide (tsValueErrMin ≤ n ∧ n ≤ tsValueErrMax)
     | none => true)
  | none => true

def wfMsg (m : Value) : Bool :=
  match m with
  | .vDict fs =>
    wfEnts (dictGet fs "text_entities") && wfDate (dictGet fs "date_unixtime")
  | _ => true

theorem entityStatus_wf (e : Value) (h : wfEntity e = true) :
    ∃ r, entityStatus e = .ok r ∧ ∀ st b, r = some (st, b) → ∃ s, b = .vStr s := by
  cases e with
  | vDict fs =>
    by_cases ht : optIsStr (dictGet fs "type") "bold" = true
    · have hb : ∃ s, (dictGet fs "text").getD (.vStr "") = .vStr s :=
        wfText_getD _ h
      obtain ⟨s, hs⟩ := hb
      cases h1 : listContains "is now UP".data s.data with
      | true =>
        refine ⟨some (.UP, .vStr s), by simp [entityStatus, ht, hs, pyIn, h1], ?_⟩
        intro st b hr
        rw [Option.some.injEq, Prod.mk.injEq] at hr
        exact ⟨s, hr.2.symm⟩
      | false =>
        cases h2 : listContains "is now DOWN".data s.data with
        | true =>
          refine ⟨some (.DOWN, .vStr s),
            by simp [entityStatus, ht, hs, pyIn, h1, h2], ?_⟩
          intro st b hr
          rw [Option.some.injEq, Prod.mk.injEq] at hr
          exact ⟨s, hr.2.symm⟩
        | false =>
          cases h3 : listContains "is still DOWN".data s.data with
          | true =>
            refine ⟨some (.DOWN, .vStr s),
              by simp [entityStatus, ht, hs, pyIn, h1, h2, h3], ?_⟩
            intro st b hr
            rw [Option.some.injEq, Prod.mk.injEq] at hr
            exact ⟨s, hr.2.symm⟩
          | false =>
            exact ⟨none, by simp [entityStatus, ht, hs, pyIn, h1, h2, h3],
              fun st b hr => nomatch hr⟩
    · exact ⟨none, by simp [entityStatus, ht], fun st b hr => nomatch hr⟩
  | vNull => exact ⟨none, rfl, fun st b hr => nomatch hr⟩
  | vBool b => exact ⟨none, rfl, fun st b hr => nomatch hr⟩
  | vInt n => exact ⟨none, rfl, fun st b hr => nomatch hr⟩
  | vStr s => exact ⟨none, rfl, fun st b hr => nomatch hr⟩
  | vList xs => exact ⟨none, rfl, fun st b hr => nomatch hr⟩

theorem statusScan_wf (es : List Value) (h : es.all wfEntity = true) :
    ∃ r, statusScan es = .ok r ∧ ∀ st b, r = some (st, b) → ∃ s, b = .vStr s := by
  induction es with
  | nil => exact ⟨none, rfl, fun st b hr => nomatch hr⟩
  | cons e rest ih =>
    rw [List.all_cons, Bool.and_eq_true] at h
    obtain ⟨r1, hr1, hstr1⟩ := entityStatus_wf e h.1
    cases r1 with
    | some p =>
      exact ⟨some p, by simp [statusScan, hr1], hstr1⟩
    | none =>
      obtain ⟨r2, hr2, hstr2⟩ := ih h.2
      exact ⟨r2, by simp [statusScan, hr1, hr2], hstr2⟩

theorem method3_wf (es : List Value) (h : es.all wfEntity = true) :
    ∃ r, method3 es = .ok r := by
  induction es with
  | nil => exact ⟨none, rfl⟩
  | cons e rest ih =>
    rw [List.all_cons, Bool.and_eq_true] at h
    obtain ⟨r2, hr2⟩ := ih h.2
    cases e with
    | vDict fs =>
      by_cases ht : optIsStr (dictGet fs "type") "link" = true
      · have hb : ∃ s, (dictGet fs "text").getD (.vStr "") = .vStr s :=
          wfText_getD _ h.1
        obtain ⟨s, hs⟩ := hb
        cases h1 : listContains ".".data s.data with
        | false => exact ⟨r2, by simp [method3, ht, hs, pyIn, h1, hr2]⟩
        | true =>
          cases h2 : listContains " ".data s.data with
          | true => exact ⟨r2, by simp [method3, ht, hs, pyIn, h1, h2, hr2]⟩
          | false =>
            exact ⟨some (String.mk (pyStrip s.data)),
              by simp [method3, ht, hs, pyIn, h1, h2]⟩
      · exact ⟨r2, by simp [method3, ht, hr2]⟩
    | vNull => exact ⟨r2, by simpa [method3] using hr2⟩
    | vBool b => exact ⟨r2, by simpa [method3] using hr2⟩
    | vInt n => exact ⟨r2, by simpa [method3] using hr2⟩
    | vStr s => exact ⟨r2, by simpa [method3] using hr2⟩
    | vList xs => exact ⟨r2, by simpa [method3] using hr2⟩

theorem method1b_str (s : String) : ∃ r, method1b (.vStr s) = .ok r := by
  unfold method1b
  by_cases h : pyTruthy (.vStr s) = true
  · exact ⟨(titleGroup s.data).map fun g => String.mk (pyStrip g), by simp [h]⟩
  · exact ⟨none, by simp [h]⟩

theorem resolveTarget_wf (sb : Option (Status × Value)) (tc : String)
    (es : List Value) (hes : es.all wfEntity = true)
    (hsb : ∀ st b, sb = some (st, b) → ∃ s, b = .vStr s) :
    ∃ r, resolveTarget sb tc es = .ok r := by
  cases sb with
  | none => exact ⟨none, rfl⟩
  | some p =>
    obtain ⟨st, b⟩ := p
    obtain ⟨s, hs⟩ := hsb st b rfl
    subst hs
    obtain ⟨r1, hr1⟩ := method1b_str s
    cases r1 with
    | some t => exact ⟨some t, by simp [resolveTarget, hr1]⟩
    | none =>
      cases hm2 : method2 tc with
      | some t => exact ⟨some t, by simp [resolveTarget, hr1, hm2]⟩
      | none =>
        obtain ⟨r3, hr3⟩ := method3_wf es hes
        exact ⟨r3, by simp [resolveTarget, hr1, hm2, hr3]⟩

/-- Helper: unfolding `processMsg` on a dict record. -/
theorem processMsg_dict (fs : List (String × Value)) :
    processMsg (.vDict fs) =
      if optIsStr (dictGet fs "from") "HetrixTools"
          && (dictGet fs "text_entities").isSome
          && (dictGet fs "date_unixtime").isSome then
        match parseTimestamp ((dictGet fs "date_unixtime").getD .vNull) with
        | .error er => .error er
        | .ok none => .ok none
        | .ok (some ts) =>
          match buildText ((dictGet fs "text").getD (.vStr "")) with
          | none => .ok none
          | some tc =>
            match (dictGet fs "text_entities").getD .vNull with
            | .vList es =>
              match statusScan es with
              | .error er => .error er
              | .ok sb =>
                match resolveTarget sb tc es with
                | .error er => .error er
                | .ok tgt => .ok (finalize ts (sb.map Prod.fst) tgt)
            | _ => .ok none
      else .ok none := rfl

theorem parseTimestamp_wf (v : Value) (h : wfDate (some v) = true) :
    ∃ r, parseTimestamp v = .ok r := by
  cases hp : pyToInt v with
  | none => exact ⟨none, by unfold parseTimestamp; rw [hp]⟩
  | some n =>
    by_cases h1 : tsOkMin ≤ n ∧ n ≤ tsOkMax
    · exact ⟨some n, by unfold parseTimestamp; rw [hp]; simp [h1]⟩
    · have h2 : tsValueErrMin ≤ n ∧ n ≤ tsValueErrMax := by
        have h3 : (match pyToInt v with
          | some n => decide (tsValueErrMin ≤ n ∧ n ≤ tsValueErrMax)
          | none => true) = true := h
        rw [hp] at h3
        exact of_decide_eq_true h3
      exact ⟨none, by unfold parseTimestamp; rw [hp]; simp [h1, h2]⟩

theorem processMsg_wf (m : Value) (h : wfMsg m = true) :
    ∃ r, processMsg m = .ok r := by
  cases m with
  | vDict fs =>
    have h' : wfEnts (dictGet fs "text_entities") = true ∧
        wfDate (dictGet fs "date_unixtime") = true := by
      have h2 : (wfEnts (dictGet fs "text_entities") &&
          wfDate (dictGet fs "date_unixtime")) = true := h
      rw [Bool.and_eq_true] at h2
      exact h2
    by_cases he : (optIsStr (dictGet fs "from") "HetrixTools"
        && (dictGet fs "text_entities").isSome
        && (dictGet fs "date_unixtime").isSome) = true
    · have he2 := he
      rw [Bool.and_eq_true, Bool.and_eq_true] at he2
      obtain ⟨v, hv⟩ : ∃ v, dictGet fs "date_unixtime" = some v :=
        Option.isSome_iff_exists.mp he2.2
      have hdate : wfDate (some v) = true := by rw [← hv]; exact h'.2
      obtain ⟨tsr, hts⟩ := parseTimestamp_wf v hdate
      cases tsr with
      | none =>
        exact ⟨none, by rw [processMsg_dict, if_pos he, hv]; simp [hts]⟩
      | some ts =>
        cases hbt : buildText ((dictGet fs "text").getD (.vStr "")) with
        | none =>
          exact ⟨none, by rw [processMsg_dict, if_pos he, hv]; simp [hts, hbt]⟩
        | some tc =>
          obtain ⟨w, hw⟩ : ∃ w, dictGet fs "text_entities" = some w :=
            Option.isSome_iff_exists.mp he2.1.2
          cases w with
          | vList es =>
            have hents : es.all wfEntity = true := by
              have h3 := h'.1
              rw [hw] at h3
              exact h3
            obtain ⟨sb, hsb, hstr⟩ := statusScan_wf es hents
            obtain ⟨tgt, htgt⟩ := resolveTarget_wf sb tc es hents hstr
            exact ⟨finalize ts (sb.map Prod.fst) tgt,
              by rw [processMsg_dict, if_pos he, hv, hw]; simp [hts, hbt, hsb, htgt]⟩
          | vNull =>
            exact ⟨none, by rw [processMsg_dict, if_pos he, hv, hw]; simp [hts, hbt]⟩
          | vBool b =>
            exact ⟨none, by rw [processMsg_dict, if_pos he, hv, hw]; simp [hts, hbt]⟩
          | vInt n =>
            exact ⟨none, by rw [processMsg_dict, if_pos he, hv, hw]; simp [hts, hbt]⟩
          | vStr s =>
            exact ⟨none, by rw [processMsg_dict, if_pos he, hv, hw]; simp [hts, hbt]⟩
          | vDict gs =>
            exact ⟨none, by rw [processMsg_dict, if_pos he, hv, hw]; simp [hts, hbt]⟩
    · exact ⟨none, by rw [processMsg_dict, if_neg he]⟩
  | vNull => exact ⟨none, rfl⟩
  | vBool b => exact ⟨none, rfl⟩
  | vInt n => exact ⟨none, rfl⟩
  | vStr s => exact ⟨none, rfl⟩
  | vList xs => exact ⟨none, rfl⟩

theorem extractLoop_wf (ms : List Value) (h : ms.all wfMsg = true) :
    ∃ evs, extractLoop ms = .ok evs := by
  induction ms with
  | nil => exact ⟨[], rfl⟩
  | cons m rest ih =>
    rw [List.all_cons, Bool.and_eq_true] at h
    obtain ⟨r, hr⟩ := processMsg_wf m h.1
    obtain ⟨evs, hevs⟩ := ih h.2
    cases r with
    | none => exact ⟨evs, by simp [extractLoop, hr, hevs]⟩
    | some ev => exact ⟨ev :: evs, by simp [extractLoop, hr, hevs]⟩

/-- C4, counterexample: extraction is not total.  A bold entity whose
`"text"` is the integer 5 makes `"is now UP" in text` raise an uncaught
`TypeError`, and a timestamp just past the `ValueError` range makes
`datetime.fromtimestamp` raise an uncaught `OSError`. -/
theorem claim_C4_counterexample :
    extract_events (some [mkMsg hetrix (.vStr "100") (.vStr "")
        (.vList [.vDict [("type", .vStr "bold"), ("text", .vInt 5)]])]) =
      .error .typeError ∧
    extract_events (some [mkMsg hetrix (.vStr "67768036191676800")
        (.vStr "") (.vList [boldEnt "x is now UP"])]) = .error .osError :=
  ⟨rfl, rfl⟩

/-- C4, amended: extraction raises no exception and returns a (possibly
empty) list for every input whose consulted entity `"text"` fields are
strings and whose parsed timestamps stay in the range where
`datetime.fromtimestamp` failures are `ValueError` (caught); absent
input (`None`) yields the empty list. -/
theorem claim_C4 :
    (∀ ms, ms.all wfMsg = true → ∃ evs, extract_events (some ms) = .ok evs) ∧
      extract_events none = .ok [] := by
  refine ⟨?_, rfl⟩
  intro ms h
  obtain ⟨evs, hevs⟩ := extractLoop_wf ms h
  exact ⟨sortByTime evs, by simp [extract_events, hevs]⟩

/-- C4, witness: the amended totality theorem at a concrete message
list. -/
theorem claim_C4_witness :
    ∃ evs, extract_events (some [mkMsg hetrix (.vStr "100") (.vStr "")
      (.vList [boldEnt "example.com is now DOWN"])]) = .ok evs :=
  claim_C4.1 _ (by decide)

/-- A message whose sender test fails: either not a record at all or its
`"from"` field is not the string `"HetrixTools"`. -/
def badSender (m : Value) : Bool :=
  match m with
  | .vDict fs => !(optIsStr (dictGet fs "from") "HetrixTools")
  | _ => true

/-- Helper: a skipped message contributes nothing to the loop. -/
theorem extractLoop_skip (m : Value) (hm : processMsg m = .ok none) :
    ∀ pre post, extractLoop (pre ++ m :: post) = extractLoop (pre ++ post) := by
  intro pre post
  induction pre with
  | nil => simp [extractLoop, hm]
  | cons p pre' ih =>
    cases hp : processMsg p with
    | error er => simp [extractLoop, hp]
    | ok r =>
      cases r with
      | none => simpa [extractLoop, hp] using ih
      | some ev => simp [extractLoop, hp, ih]

/-- C8: a message from any sender other than `"HetrixTools"` is skipped
before any other processing: it yields no event, and removing it from
the input changes nothing about the extracted list. -/
theorem claim_C8 (m : Value) (h : badSender m = true) :
    processMsg m = .ok none ∧
      ∀ pre post, extract_events (some (pre ++ m :: post)) =
        extract_events (some (pre ++ post)) := by
  have h1 : processMsg m = .ok none := by
    cases m with
    | vDict fs =>
      have h2 : optIsStr (dictGet fs "from") "HetrixTools" = false := by
        have h3 : (!(optIsStr (dictGet fs "from") "HetrixTools")) = true := h
        simpa using h3
      rw [processMsg_dict]
      simp [h2]
    | vNull => rfl
    | vBool b => rfl
    | vInt n => rfl
    | vStr s => rfl
    | vList xs => rfl
  refine ⟨h1, fun pre post => ?_⟩
  simp [extract_events, extractLoop_skip m h1 pre post]

/-- C8, witness: a concrete non-`HetrixTools` message is dropped and
removing it preserves the output. -/
theorem claim_C8_witness :
    processMsg (mkMsg (.vStr "Other") (.vStr "100") (.vStr "")
      (.vList [boldEnt "x is now UP"])) = .ok none ∧
    ∀ pre post, extract_events (some (pre ++ mkMsg (.vStr "Other")
        (.vStr "100") (.vStr "") (.vList [boldEnt "x is now UP"]) :: post)) =
      extract_events (some (pre ++ post)) :=
  claim_C8 _ (by decide)

/-- C9: the interval renderer assumes the state before a service's first
event to be the logical opposite of that first event's status: the first
plotted bar runs from the left edge of the plot to the first event and
carries that opposite status. -/
theorem claim_C9 (ps pe : Int) (first : Event) (rest : List Event)
    (h : ps < first.time) :
    (serviceBars ps pe (first :: rest)).head? =
      some ⟨ps, first.time, oppStatus first.status⟩ := by
  simp [serviceBars, intervalsGo, h]

/-- C9, witness: the renderer theorem at a concrete event list. -/
theorem claim_C9_witness :
    (serviceBars 0 1000 [⟨"a", .UP, 100⟩, ⟨"a", .DOWN, 400⟩]).head? =
      some ⟨0, 100, oppStatus .UP⟩ :=
  claim_C9 0 1000 ⟨"a", .UP, 100⟩ [⟨"a", .DOWN, 400⟩] (by decide)

/-- Helper: unfolding the resolution chain when a status was found. -/
theorem resolveTarget_some (st : Status) (b : Value) (tc : String)
    (es : List Value) :
    resolveTarget (some (st, b)) tc es =
      match method1b b with
      | .error er => .error er
      | .ok (some t) => .ok (some t)
      | .ok none =>
        match method2 tc with
        | some t => .ok (some t)
        | none => method3 es := rfl

/-- C1: the three resolvers run in strict priority order.  When the
title parse produces a target, the body text and entity list are never
consulted; the target-line parse runs only when the title parse produced
nothing, the link fallback only when both produced nothing; and when all
three fail on a message whose status was determined, the message yields
no event. -/
theorem claim_C1 (st : Status) (b : Value) (tc : String) (es : List Value) :
    (∀ t, method1b b = .ok (some t) →
      resolveTarget (some (st, b)) tc es = .ok (some t)) ∧
    (method1b b = .ok none → ∀ t, method2 tc = some t →
      resolveTarget (some (st, b)) tc es = .ok (some t)) ∧
    (method1b b = .ok none → method2 tc = none →
      resolveTarget (some (st, b)) tc es = method3 es) ∧
    (∀ fs dv ts,
      optIsStr (dictGet fs "from") "HetrixTools" = true →
      dictGet fs "date_unixtime" = some dv →
      parseTimestamp dv = .ok (some ts) →
      buildText ((dictGet fs "text").getD (.vStr "")) = some tc →
      dictGet fs "text_entities" = some (.vList es) →
      statusScan es = .ok (some (st, b)) →
      resolveTarget (some (st, b)) tc es = .ok none →
      processMsg (.vDict fs) = .ok none) := by
  refine ⟨?_, ?_, ?_, ?_⟩
  · intro t h1
    rw [resolveTarget_some, h1]
  · intro h1 t h2
    rw [resolveTarget_some, h1, h2]
  · intro h1 h2
    rw [resolveTarget_some, h1, h2]
  · intro fs dv ts hfrom hdv hts htc hents hscan hres
    have he : (optIsStr (dictGet fs "from") "HetrixTools"
        && (dictGet fs "text_entities").isSome
        && (dictGet fs "date_unixtime").isSome) = true := by
      simp [hfrom, hdv, hents]
    rw [processMsg_dict, if_pos he, hdv]
    simp [hts, htc, hents, hscan, hres, finalize]

/-- C1, witness: a concrete eligible message (bold text
`"is still DOWN"`, body `"hello"`, no link entity) on which status is
determined but all three resolvers fail, and which yields no event. -/
theorem claim_C1_witness :
    processMsg (.vDict [("from", hetrix), ("date_unixtime", .vStr "100"),
      ("text", .vStr "hello"),
      ("text_entities", .vList [boldEnt "is still DOWN"])]) = .ok none :=
  (claim_C1 .DOWN (.vStr "is still DOWN") "hello"
      [boldEnt "is still DOWN"]).2.2.2
    [("from", hetrix), ("date_unixtime", .vStr "100"),
      ("text", .vStr "hello"),
      ("text_entities", .vList [boldEnt "is still DOWN"])]
    (.vStr "100") 100 rfl rfl rfl rfl rfl rfl rfl

/-- Helper: a pattern case-insensitively matches itself followed by
anything. -/
theorem ciPrefixAt_self (pat rest : List Char) :
    ciPrefixAt pat (pat ++ rest) = true := by
  induction pat with
  | nil => rfl
  | cons c cs ih => simp [ciPrefixAt, ih]

/-- Helper: dropping whitespace skips a fully-whitespace prefix. -/
theorem dropWhile_ws_append (w rest : List Char)
    (hws : ∀ c ∈ w, isPySpace c = true) :
    List.dropWhile isPySpace (w ++ rest) = List.dropWhile isPySpace rest := by
  induction w with
  | nil => rfl
  | cons c w' ih =>
    rw [List.cons_append, List.dropWhile_cons,
      hws c (List.mem_cons_self c w')]
    exact ih fun d hd => hws d (List.mem_cons_of_mem c hd)

/-- Helper: unfolding `wsThenPhrase` on a non-empty list. -/
theorem wsThenPhrase_cons (c : Char) (l : List Char) :
    wsThenPhrase (c :: l) =
      (isPySpace c && phraseAt (List.dropWhile isPySpace (c :: l))) := rfl

/-- Helper: unfolding the title parse on a string argument. -/
theorem method1b_vStr (s : String) :
    method1b (.vStr s) =
      if pyTruthy (.vStr s) then
        .ok ((titleGroup s.data).map fun g => String.mk (pyStrip g))
      else .ok none := rfl

/-- C10: when a bold text is a recognized status phrase preceded only by
whitespace, the title parse matches with a capture that strips to the
empty string; the empty (hence falsy) target suppresses both fallbacks
and the clean-up step, so the message is dropped. -/
theorem claim_C10 (w p r : List Char) (st : Status)
    (hw : w ≠ []) (hws : ∀ c ∈ w, isPySpace c = true)
    (hp : p = "is now UP".data ∨ p = "is now DOWN".data ∨
      p = "is still DOWN".data) :
    method1b (.vStr (String.mk (w ++ p ++ r))) = .ok (some "") ∧
    (∀ tc es, resolveTarget (some (st, .vStr (String.mk (w ++ p ++ r))))
      tc es = .ok (some "")) ∧
    (∀ ts, finalize ts (some st) (some "") = none) ∧
    (∀ fs dv ts tc es,
      optIsStr (dictGet fs "from") "HetrixTools" = true →
      dictGet fs "date_unixtime" = some dv →
      parseTimestamp dv = .ok (some ts) →
      buildText ((dictGet fs "text").getD (.vStr "")) = some tc →
      dictGet fs "text_entities" = some (.vList es) →
      statusScan es = .ok (some (st, .vStr (String.mk (w ++ p ++ r)))) →
      processMsg (.vDict fs) = .ok none) := by
  have hphrase : phraseAt (p ++ r) = true := by
    unfold phraseAt
    rcases hp with hp | hp | hp
    · rw [hp, ciPrefixAt_self]
      simp
    · rw [hp, ciPrefixAt_self]
      simp
    · rw [hp, ciPrefixAt_self]
      simp
  have hdrop2 : List.dropWhile isPySpace (p ++ r) = p ++ r := by
    rcases hp with hp | hp | hp <;> (rw [hp]; rfl)
  have hwtp : wsThenPhrase (w ++ p ++ r) = true := by
    cases w with
    | nil => exact absurd rfl hw
    | cons c w' =>
      have hc : isPySpace c = true := hws c (List.mem_cons_self c w')
      have hdrop' : List.dropWhile isPySpace (w' ++ p ++ r) = p ++ r := by
        rw [List.append_assoc,
          dropWhile_ws_append w' (p ++ r)
            (fun d hd => hws d (List.mem_cons_of_mem c hd)), hdrop2]
      have hassoc : (c :: w') ++ p ++ r = c :: (w' ++ p ++ r) := by simp
      rw [hassoc, wsThenPhrase_cons, hc, Bool.true_and,
        List.dropWhile_cons]
      simp only [hc, if_true]
      rw [hdrop', hphrase]
  have htitle : titleGroup (w ++ p ++ r) = some [] := by
    unfold titleGroup titleGroupAux
    rw [hwtp]
    rfl
  have hne : String.mk (w ++ p ++ r) ≠ "" := by
    intro heq
    have hd : w ++ p ++ r = ([] : List Char) := congrArg String.data heq
    rcases List.append_eq_nil.mp (List.append_eq_nil.mp hd).1 with ⟨h1, _⟩
    exact hw h1
  have hm1 : method1b (.vStr (String.mk (w ++ p ++ r))) = .ok (some "") := by
    rw [method1b_vStr,
      if_pos (by simp only [pyTruthy, ne_eq, decide_eq_true_eq]; exact hne)]
    show Except.ok ((titleGroup (w ++ p ++ r)).map
      fun g => String.mk (pyStrip g)) = .ok (some "")
    rw [htitle]
    rfl
  refine ⟨hm1, fun tc es => by rw [resolveTarget_some, hm1], fun ts => rfl, ?_⟩
  intro fs dv ts tc es hfrom hdv hts htc hents hscan
  have he : (optIsStr (dictGet fs "from") "HetrixTools"
      && (dictGet fs "text_entities").isSome
      && (dictGet fs "date_unixtime").isSome) = true := by
    simp [hfrom, hdv, hents]
  have hres : resolveTarget (some (st, .vStr (String.mk (w ++ p ++ r))))
      tc es = .ok (some "") := by rw [resolveTarget_some, hm1]
  rw [processMsg_dict, if_pos he, hdv]
  simp only [Option.getD_some]
  simp only [hts, htc, hents, Option.getD_some, hscan, hres]
  rfl

/-- C10, witness: bold text `" is now UP"`: the title parse yields the
empty capture, the fallbacks are suppressed for every body text and
entity list, and any eligible message carrying it emits nothing. -/
theorem claim_C10_witness :
    method1b (.vStr (String.mk ([' '] ++ "is now UP".data ++ []))) =
      .ok (some "") ∧
    (∀ tc es, resolveTarget
      (some (.UP, .vStr (String.mk ([' '] ++ "is now UP".data ++ []))))
      tc es = .ok (some "")) ∧
    (∀ ts, finalize ts (some Status.UP) (some "") = none) ∧
    (∀ fs dv ts tc es,
      optIsStr (dictGet fs "from") "HetrixTools" = true →
      dictGet fs "date_unixtime" = some dv →
      parseTimestamp dv = .ok (some ts) →
      buildText ((dictGet fs "text").getD (.vStr "")) = some tc →
      dictGet fs "text_entities" = some (.vList es) →
      statusScan es = .ok (some (.UP,
        .vStr (String.mk ([' '] ++ "is now UP".data ++ [])))) →
      processMsg (.vDict fs) = .ok none) :=
  claim_C10 [' '] "is now UP".data [] .UP (by decide) (by decide)
    (Or.inl rfl)

/-- Helper: inserting permutes to consing. -/
theorem insertEv_perm (e : Event) (l : List Event) :
    List.Perm (insertEv e l) (e :: l) := by
  induction l with
  | nil => exact List.Perm.refl _
  | cons f rest ih =>
    by_cases h : e.time ≤ f.time
    · simp [insertEv, h]
    · simp only [insertEv, h, if_false]
      exact ((ih.cons f).trans (List.Perm.swap e f rest))

/-- Helper: insertion preserves sortedness by time. -/
theorem insertEv_sorted (e : Event) (l : List Event)
    (h : l.Pairwise fun a b => a.time ≤ b.time) :
    (insertEv e l).Pairwise fun a b => a.time ≤ b.time := by
  induction l with
  | nil => simp [insertEv]
  | cons f rest ih =>
    rw [List.pairwise_cons] at h
    by_cases hef : e.time ≤ f.time
    · rw [insertEv, if_pos hef, List.pairwise_cons]
      refine ⟨?_, List.pairwise_cons.mpr h⟩
      intro b hb
      rcases List.mem_cons.mp hb with hb | hb
      · rw [hb]
        exact hef
      · exact le_trans hef (h.1 b hb)
    · rw [insertEv, if_neg hef, List.pairwise_cons]
      refine ⟨?_, ih h.2⟩
      intro b hb
      rcases List.mem_cons.mp ((insertEv_perm e rest).mem_iff.mp hb) with hb | hb
      · rw [hb]
        exact le_of_lt (lt_of_not_le hef)
      · exact h.1 b hb

/-- Helper: the sort output is non-decreasing in time. -/
theorem sortByTime_sorted (l : List Event) :
    (sortByTime l).Pairwise fun a b => a.time ≤ b.time := by
  induction l with
  | nil => simp [sortByTime]
  | cons e rest ih => exact insertEv_sorted e (sortByTime rest) ih

/-- Helper: insertion walks only past strictly earlier elements, so
within each equal-time class the new element lands first. -/
theorem insertEv_filter (e : Event) (l : List Event) (t : Int) :
    (insertEv e l).filter (fun x => x.time == t) =
      if e.time == t then e :: l.filter (fun x => x.time == t)
      else l.filter (fun x => x.time == t) := by
  induction l with
  | nil =>
    by_cases het : e.time = t <;>
      simp [insertEv, List.filter_singleton, het]
  | cons f rest ih =>
    by_cases hef : e.time ≤ f.time
    · rw [insertEv, if_pos hef]
      by_cases het : e.time = t
      · simp [List.filter_cons, het]
      · simp [List.filter_cons, het]
    · rw [insertEv, if_neg hef]
      have hfe : f.time < e.time := lt_of_not_le hef
      by_cases hft : f.time = t
      · have het : e.time ≠ t := by
          intro he
          omega
        simp [List.filter_cons, hft, het, ih]
      · simp [List.filter_cons, hft, ih]

/-- Helper: sorting preserves each equal-time class verbatim. -/
theorem sortByTime_filter (l : List Event) (t : Int) :
    (sortByTime l).filter (fun x => x.time == t) =
      l.filter (fun x => x.time == t) := by
  induction l with
  | nil => rfl
  | cons e rest ih =>
    rw [sortByTime, insertEv_filter]
    by_cases het : e.time = t
    · simp [List.filter_cons, het, ih]
    · simp [List.filter_cons, het, ih]

/-- C7: whatever the message order, the returned event list is sorted
non-decreasing by time, and it is a stable sort of the extraction-order
list: for every time value, the events at that time appear exactly as
they were extracted. -/
theorem claim_C7 (ms : List Value) (evs : List Event)
    (h : extract_events (some ms) = .ok evs) :
    evs.Pairwise (fun a b => a.time ≤ b.time) ∧
      ∃ raw, extractLoop ms = .ok raw ∧ evs = sortByTime raw ∧
        ∀ t, evs.filter (fun x => x.time == t) =
          raw.filter (fun x => x.time == t) := by
  have hred : extract_events (some ms) =
      (match extractLoop ms with
       | .error er => .error er
       | .ok evs => .ok (sortByTime evs)) := rfl
  rw [hred] at h
  cases hloop : extractLoop ms with
  | error er => rw [hloop] at h; exact absurd h (by simp)
  | ok raw =>
    rw [hloop] at h
    have hevs : evs = sortByTime raw := by
      injection h with h1
      exact h1.symm
    subst hevs
    exact ⟨sortByTime_sorted raw, raw, rfl, rfl, sortByTime_filter raw⟩

/-- C7, witness: three messages arriving out of order, two sharing a
timestamp, are returned sorted with the tie in extraction order. -/
theorem claim_C7_witness :
    ([⟨"a", .DOWN, 100⟩, ⟨"b", .UP, 300⟩, ⟨"c", .DOWN, 300⟩] :
        List Event).Pairwise (fun a b => a.time ≤ b.time) ∧
      ∃ raw, extractLoop
          [mkMsg hetrix (.vStr "300") (.vStr "")
            (.vList [boldEnt "b is now UP"]),
          mkMsg hetrix (.vStr "100") (.vStr "")
            (.vList [boldEnt "a is now DOWN"]),
          mkMsg hetrix (.vStr "300") (.vStr "")
            (.vList [boldEnt "c is still DOWN"])] = .ok raw ∧
        ([⟨"a", .DOWN, 100⟩, ⟨"b", .UP, 300⟩, ⟨"c", .DOWN, 300⟩] :
          List Event) = sortByTime raw ∧
        ∀ t, ([⟨"a", .DOWN, 100⟩, ⟨"b", .UP, 300⟩, ⟨"c", .DOWN, 300⟩] :
            List Event).filter (fun x => x.time == t) =
          raw.filter (fun x => x.time == t) :=
  claim_C7 _ _ rfl

/-- Helper: unfolding the per-entity status test on a dict entity. -/
theorem entityStatus_dict (fs : List (String × Value)) :
    entityStatus (.vDict fs) =
      if optIsStr (dictGet fs "type") "bold" then
        match pyIn "is now UP" ((dictGet fs "text").getD (.vStr "")) with
        | .error er => .error er
        | .ok true => .ok (some (.UP, (dictGet fs "text").getD (.vStr "")))
        | .ok false =>
          match pyIn "is now DOWN" ((dictGet fs "text").getD (.vStr "")) with
          | .error er => .error er
          | .ok true => .ok (some (.DOWN, (dictGet fs "text").getD (.vStr "")))
          | .ok false =>
            match pyIn "is still DOWN" ((dictGet fs "text").getD (.vStr "")) with
            | .error er => .error er
            | .ok true => .ok (some (.DOWN, (dictGet fs "text").getD (.vStr "")))
            | .ok false => .ok none
      else .ok none := rfl

/-- Helper: unfolding one step of the status scan. -/
theorem statusScan_cons (e : Value) (rest : List Value) :
    statusScan (e :: rest) =
      match entityStatus e with
      | .error er => .error er
      | .ok (some r) => .ok (some r)
      | .ok none => statusScan rest := rfl

/-- Helper: the scan hits exactly the first entity reporting a status. -/
theorem statusScan_first (es : List Value) (r : Status × Value) :
    statusScan es = .ok (some r) ↔
      ∃ pre e post, es = pre ++ e :: post ∧
        entityStatus e = .ok (some r) ∧
        ∀ e' ∈ pre, entityStatus e' = .ok none := by
  constructor
  · intro h
    induction es with
    | nil => exact absurd h (by simp [statusScan])
    | cons e rest ih =>
      rw [statusScan_cons] at h
      cases hes : entityStatus e with
      | error er => rw [hes] at h; exact absurd h (by simp)
      | ok o =>
        cases o with
        | some p =>
          rw [hes] at h
          have hpr : p = r := by
            injection h with h1
            injection h1
          exact ⟨[], e, rest, rfl, by rw [hes, hpr], by simp⟩
        | none =>
          rw [hes] at h
          obtain ⟨pre, e', post, heq, he', hpre⟩ := ih h
          refine ⟨e :: pre, e', post, by rw [heq]; rfl, he', ?_⟩
          intro x hx
          rcases List.mem_cons.mp hx with hx | hx
          · rw [hx]
            exact hes
          · exact hpre x hx
  · rintro ⟨pre, e, post, heq, he, hpre⟩
    subst heq
    induction pre with
    | nil => rw [List.nil_append, statusScan_cons, he]
    | cons q pre' ih =>
      have hq : entityStatus q = .ok none :=
        hpre q (List.mem_cons_self q pre')
      rw [List.cons_append, statusScan_cons, hq]
      exact ih fun x hx => hpre x (List.mem_cons_of_mem q hx)

/-- Helper: inverting a successful per-entity status test. -/
theorem entityStatus_some_inv (e : Value) (st : Status) (b : Value)
    (h : entityStatus e = .ok (some (st, b))) :
    ∃ fs, e = .vDict fs ∧ optIsStr (dictGet fs "type") "bold" = true ∧
      b = (dictGet fs "text").getD (.vStr "") ∧
      ((pyIn "is now UP" b = .ok true ∧ st = .UP) ∨
       (pyIn "is now UP" b = .ok false ∧ pyIn "is now DOWN" b = .ok true ∧
         st = .DOWN) ∨
       (pyIn "is now UP" b = .ok false ∧ pyIn "is now DOWN" b = .ok false ∧
         pyIn "is still DOWN" b = .ok true ∧ st = .DOWN)) := by
  cases e with
  | vDict fs =>
    rw [entityStatus_dict] at h
    by_cases ht : optIsStr (dictGet fs "type") "bold" = true
    · rw [if_pos ht] at h
      cases hp1 : pyIn "is now UP" ((dictGet fs "text").getD (.vStr "")) with
      | error er => rw [hp1] at h; exact absurd h (by simp)
      | ok b1 =>
        rw [hp1] at h
        cases b1 with
        | true =>
          rw [Except.ok.injEq, Option.some.injEq, Prod.mk.injEq] at h
          refine ⟨fs, rfl, ht, h.2.symm, Or.inl ⟨?_, h.1.symm⟩⟩
          rw [← h.2]
          exact hp1
        | false =>
          cases hp2 : pyIn "is now DOWN"
              ((dictGet fs "text").getD (.vStr "")) with
          | error er => rw [hp2] at h; exact absurd h (by simp)
          | ok b2 =>
            rw [hp2] at h
            cases b2 with
            | true =>
              rw [Except.ok.injEq, Option.some.injEq, Prod.mk.injEq] at h
              refine ⟨fs, rfl, ht, h.2.symm,
                Or.inr (Or.inl ⟨?_, ?_, h.1.symm⟩)⟩
              · rw [← h.2]
                exact hp1
              · rw [← h.2]
                exact hp2
            | false =>
              cases hp3 : pyIn "is still DOWN"
                  ((dictGet fs "text").getD (.vStr "")) with
              | error er => rw [hp3] at h; exact absurd h (by simp)
              | ok b3 =>
                rw [hp3] at h
                cases b3 with
                | true =>
                  rw [Except.ok.injEq, Option.some.injEq,
                    Prod.mk.injEq] at h
                  refine ⟨fs, rfl, ht, h.2.symm,
                    Or.inr (Or.inr ⟨?_, ?_, ?_, h.1.symm⟩)⟩
                  · rw [← h.2]
                    exact hp1
                  · rw [← h.2]
                    exact hp2
                  · rw [← h.2]
                    exact hp3
                | false => exact absurd h (by simp)
    · rw [if_neg ht] at h
      exact absurd h (by simp)
  | vNull => exact absurd h (by simp [entityStatus])
  | vBool b0 => exact absurd h (by simp [entityStatus])
  | vInt n => exact absurd h (by simp [entityStatus])
  | vStr s => exact absurd h (by simp [entityStatus])
  | vList xs => exact absurd h (by simp [entityStatus])

/-- C5: status determination scans entities in order: a status
`(st, boldText)` is reported iff some entity reports it and every
earlier entity reports nothing; a reporting entity is a dict of type
`"bold"` whose text contains `"is now UP"` (then UP), else
`"is now DOWN"` (then DOWN), else `"is still DOWN"` (then DOWN); and a
message on which no bold entity matches produces no event. -/
theorem claim_C5 :
    (∀ es r, statusScan es = .ok (some r) ↔
      ∃ pre e post, es = pre ++ e :: post ∧
        entityStatus e = .ok (some r) ∧
        ∀ e' ∈ pre, entityStatus e' = .ok none) ∧
    (∀ e st b, entityStatus e = .ok (some (st, b)) →
      ∃ fs, e = .vDict fs ∧ optIsStr (dictGet fs "type") "bold" = true ∧
        b = (dictGet fs "text").getD (.vStr "") ∧
        ((pyIn "is now UP" b = .ok true ∧ st = .UP) ∨
         (pyIn "is now UP" b = .ok false ∧ pyIn "is now DOWN" b = .ok true ∧
           st = .DOWN) ∨
         (pyIn "is now UP" b = .ok false ∧ pyIn "is now DOWN" b = .ok false ∧
           pyIn "is still DOWN" b = .ok true ∧ st = .DOWN))) ∧
    (∀ fs dv ts tc es,
      optIsStr (dictGet fs "from") "HetrixTools" = true →
      dictGet fs "date_unixtime" = some dv →
      parseTimestamp dv = .ok (some ts) →
      buildText ((dictGet fs "text").getD (.vStr "")) = some tc →
      dictGet fs "text_entities" = some (.vList es) →
      statusScan es = .ok none →
      processMsg (.vDict fs) = .ok none) := by
  refine ⟨statusScan_first, entityStatus_some_inv, ?_⟩
  intro fs dv ts tc es hfrom hdv hts htc hents hscan
  have he : (optIsStr (dictGet fs "from") "HetrixTools"
      && (dictGet fs "text_entities").isSome
      && (dictGet fs "date_unixtime").isSome) = true := by
    simp [hfrom, hdv, hents]
  rw [processMsg_dict, if_pos he, hdv]
  simp only [Option.getD_some, hts, htc, hents, hscan]
  rfl

/-- C5, witness: the scan skips a link entity, takes the first matching
bold entity and ignores the later one. -/
theorem claim_C5_witness :
    ∃ pre e post,
      ([linkEnt "x.com", boldEnt "a is now UP", boldEnt "b is now DOWN"] :
        List Value) = pre ++ e :: post ∧
      entityStatus e = .ok (some (.UP, .vStr "a is now UP")) ∧
      ∀ e' ∈ pre, entityStatus e' = .ok none :=
  (claim_C5.1 [linkEnt "x.com", boldEnt "a is now UP",
    boldEnt "b is now DOWN"] (.UP, .vStr "a is now UP")).mp rfl

/-- C6, counterexample: the regex search is not restricted to lines
introduced by the label.  In the body `"abcTarget: foo"` no line starts
with `"Target:"` (prepending a newline, `"\nTarget:"` occurs nowhere),
yet the resolver captures `"foo"` and an event is emitted from it. -/
theorem claim_C6_counterexample :
    listContains ("\nTarget:".data) ('\n' :: "abcTarget: foo".data) = false ∧
    extract_events (some [mkMsg hetrix (.vStr "100")
        (.vStr "abcTarget: foo") (.vList [boldEnt "is still DOWN"])]) =
      .ok [⟨"foo", .DOWN, 100⟩] :=
  ⟨rfl, rfl⟩

/-- Helper: unfolding the anchored continuation after a `Target:`
literal. -/
theorem afterTarget_eq (s : List Char) :
    afterTarget s =
      match tryA (s.dropWhile isPySpace) with
      | some g => some g
      | none => tryB (s.takeWhile isPySpace) (s.dropWhile isPySpace) := rfl

/-- C6, amended: the resolver captures at the first occurrence of the
literal `"Target:"` anywhere in the body (not only at line starts); at
that occurrence the link-style alternative is preferred whenever it can
match past the whitespace run, and the plain-text alternative is used
only when it cannot. -/
theorem claim_C6 :
    (∀ s g, tryA (s.dropWhile isPySpace) = some g → afterTarget s = some g) ∧
    (∀ s, tryA (s.dropWhile isPySpace) = none →
      afterTarget s = tryB (s.takeWhile isPySpace) (s.dropWhile isPySpace)) ∧
    (∀ u w g,
      (∀ i, i < u.length →
        ¬ ("Target:".data).isPrefixOf ((u ++ "Target:".data ++ w).drop i) = true) →
      afterTarget w = some g →
      targetSearch (u ++ "Target:".data ++ w) = some g) := by
  refine ⟨?_, ?_, ?_⟩
  · intro s g h
    rw [afterTarget_eq, h]
  · intro s h
    rw [afterTarget_eq, h]
  · intro u w g hu hw
    induction u with
    | nil =>
      rw [List.nil_append]
      have hpre : ("Target:".data).isPrefixOf ("Target:".data ++ w) = true := by
        rw [List.isPrefixOf_iff_prefix]
        exact ⟨w, rfl⟩
      have hT : "Target:".data ++ w = 'T' :: ("arget:".data ++ w) := rfl
      rw [hT] at hpre ⊢
      rw [targetSearch, if_pos hpre]
      rw [← hT]
      have hdrop2 : List.drop 7 ("Target:".data ++ w) = w := by
        have h7 : ("Target:".data).length = 7 := rfl
        rw [← h7]
        exact List.drop_left _ _
      rw [hdrop2, hw]
    | cons c u' ih =>
      have hstep : (c :: u') ++ "Target:".data ++ w =
          c :: (u' ++ "Target:".data ++ w) := by simp
      rw [hstep]
      have hnot : ¬ ("Target:".data).isPrefixOf
          (c :: (u' ++ "Target:".data ++ w)) = true := by
        have h0 := hu 0 (by simp)
        rw [hstep] at h0
        simpa using h0
      cases hcw : c :: (u' ++ "Target:".data ++ w) with
      | nil => exact absurd hcw (by simp)
      | cons d rest =>
        injection hcw with hc hrest
        rw [targetSearch]
        rw [← hc, ← hrest] at *
        rw [if_neg hnot]
        exact ih fun i hi => by
          have := hu (i + 1) (by simpa using Nat.succ_lt_succ hi)
          rw [hstep] at this
          simpa using this

/-- C6, witness: a mid-line `Target:` label with plain trailing text is
found and captured. -/
theorem claim_C6_witness :
    targetSearch ("x ".data ++ "Target:".data ++ " foo".data) =
      some ("foo".data) :=
  claim_C6.2.2 "x ".data " foo".data "foo".data (by decide) rfl
